import Mathlib

/-!
Shallow embedding of the scraping pipeline from `src/lib/lib.rs`
(crate `vstu-scraping-rs`).

Texts (labels, titles, cell contents) are modelled as `List Char`;
URLs as `String`.  Machinery that can `panic!` in Rust (`unwrap`,
`expect`) is modelled by the `panic` constructor of an explicit result
type; recoverable `Result`/`Option` errors by `err`/`none`.  The
`soup` HTML-query primitives and the HTTP transport are external
collaborators, so a "world" record supplies their answers; the
embedded functions are the pure logic layered on top of them, mirrored
statement by statement from the Rust source.
-/

/-- The nine attribute slots of `struct Attributes` (lib.rs 16-27). -/
inductive Slot where
  | temperature
  | humidity
  | illumination
  | watering
  | soil
  | fertilizer
  | transplant
  | propagation
  | features
deriving DecidableEq, Repr

/-- `struct Attribute { parameter, value }` (lib.rs 28-32). -/
structure Attribute where
  parameter : List Char
  value : List Char
deriving DecidableEq, Repr

/-- `struct Attributes`: nine optional slots (lib.rs 16-27). -/
structure Attributes where
  temperature : Option Attribute := none
  humidity : Option Attribute := none
  illumination : Option Attribute := none
  watering : Option Attribute := none
  soil : Option Attribute := none
  fertilizer : Option Attribute := none
  transplant : Option Attribute := none
  propagation : Option Attribute := none
  features : Option Attribute := none
deriving DecidableEq, Repr

/-- Read one slot of an `Attributes` record. -/
def Attributes.slot (a : Attributes) : Slot → Option Attribute
  | Slot.temperature => a.temperature
  | Slot.humidity => a.humidity
  | Slot.illumination => a.illumination
  | Slot.watering => a.watering
  | Slot.soil => a.soil
  | Slot.fertilizer => a.fertilizer
  | Slot.transplant => a.transplant
  | Slot.propagation => a.propagation
  | Slot.features => a.features

/-- Overwrite one slot of an `Attributes` record (the effect of each
branch of the `if/else if` chain in `parse_attributes`). -/
def Attributes.setSlot (a : Attributes) : Slot → Attribute → Attributes
  | Slot.temperature, x => { a with temperature := some x }
  | Slot.humidity, x => { a with humidity := some x }
  | Slot.illumination, x => { a with illumination := some x }
  | Slot.watering, x => { a with watering := some x }
  | Slot.soil, x => { a with soil := some x }
  | Slot.fertilizer, x => { a with fertilizer := some x }
  | Slot.transplant, x => { a with transplant := some x }
  | Slot.propagation, x => { a with propagation := some x }
  | Slot.features, x => { a with features := some x }

/-- `str::to_lowercase` restricted to the alphabets that occur in the
source's labels and patterns: ASCII `A..Z` and Cyrillic `А..Я`/`Ё` are
lowered, every other character is kept.  (Rust lowers further Unicode
ranges, but no character outside these ranges lowers into the Cyrillic
letters the patterns of `parse_attributes` are made of.) -/
def rustToLower (c : Char) : Char :=
  if 'A' ≤ c ∧ c ≤ 'Z' then Char.ofNat (c.toNat + 32)
  else if 'А' ≤ c ∧ c ≤ 'Я' then Char.ofNat (c.toNat + 32)
  else if c = 'Ё' then 'ё'
  else c

/-- `to_lowercase` on a whole text. -/
def toLowerList (cs : List Char) : List Char := cs.map rustToLower

/-- The alternatives of the regex in `parse_attributes` (lib.rs
247-259), as (capture-group slot, literal) pairs in pattern order.
`fertilizer` owns two literals, exactly as in
`(?P<fertil>подкорм|удобрен)`. -/
def keywords : List (Slot × List Char) :=
  [(Slot.temperature, "температ".data),
   (Slot.humidity, "влажн".data),
   (Slot.illumination, "освещен".data),
   (Slot.watering, "полив".data),
   (Slot.soil, "грунт".data),
   (Slot.fertilizer, "подкорм".data),
   (Slot.fertilizer, "удобрен".data),
   (Slot.transplant, "пересад".data),
   (Slot.propagation, "размнож".data),
   (Slot.features, "особен".data)]

/-- Try the regex alternatives, in pattern order, as literal prefixes
of `l` (the behaviour of the alternation at one start position). -/
def findSlot : List (Slot × List Char) → List Char → Option Slot
  | [], _ => none
  | (s, kw) :: rest, l => if kw.isPrefixOf l then some s else findSlot rest l

/-- The alternation tried at one position of the haystack. -/
def matchAt (l : List Char) : Option Slot := findSlot keywords l

/-- `Regex::captures` of the pattern of `parse_attributes` on `s`:
the `regex` crate uses leftmost-first semantics, so the alternative
matching at the smallest start position wins, and at equal start
positions the earlier alternative in the pattern wins.  The result is
the capture group that matched, `none` when nothing matches. -/
def reCaptures : List Char → Option Slot
  | [] => none
  | c :: rest =>
    match matchAt (c :: rest) with
    | some s => some s
    | none => reCaptures rest

/-- One iteration of the `for item in list` loop of `parse_attributes`
(lib.rs 263-290): lower-case the label, run the regex, and overwrite
the slot of the matched capture group — or `features` when the regex
does not match. -/
def applyItem (attrs : Attributes) (item : Attribute) : Attributes :=
  match reCaptures (toLowerList item.parameter) with
  | none => { attrs with features := some item }
  | some Slot.temperature => { attrs with temperature := some item }
  | some Slot.humidity => { attrs with humidity := some item }
  | some Slot.illumination => { attrs with illumination := some item }
  | some Slot.watering => { attrs with watering := some item }
  | some Slot.soil => { attrs with soil := some item }
  | some Slot.fertilizer => { attrs with fertilizer := some item }
  | some Slot.transplant => { attrs with transplant := some item }
  | some Slot.propagation => { attrs with propagation := some item }
  | some Slot.features => { attrs with features := some item }

/-- `parse_attributes` (lib.rs 245-292): fold the classification loop
over the rows, starting from `Attributes::default()`.  (The Rust
function wraps the result in `Ok`; it can never fail, so the wrapper
is dropped here.) -/
def parse_attributes (list : List Attribute) : Attributes :=
  list.foldl applyItem {}

/-- Substring test at Char level: does `kw` occur contiguously in `l`?
(The notion of "the label contains a keyword".) -/
def containsSub (kw : List Char) : List Char → Bool
  | [] => kw.isPrefixOf []
  | c :: rest => kw.isPrefixOf (c :: rest) || containsSub kw rest

example : reCaptures (toLowerList "Полив".data) = some Slot.watering := by decide
example : reCaptures (toLowerList "Температура".data) = some Slot.temperature := by decide
example : reCaptures (toLowerList "цветение".data) = none := by decide
example : reCaptures (toLowerList "Полив и температура".data) = some Slot.watering := by decide

/-- Result of a computation that may `panic!` (via `unwrap`/`expect`)
but has no recoverable error path. -/
inductive PRes (α : Type) where
  | panic
  | ok (a : α)
deriving DecidableEq, Repr

/-- Result of a computation that may `panic!` or return a recoverable
`Err` (absorbed by the caller with `.ok()`). -/
inductive ERes (α : Type) where
  | panic
  | err
  | ok (a : α)
deriving DecidableEq, Repr

/-- Turn `parse_houseplant(url).await.ok()` into an `Option` (lib.rs
112): `Err` becomes `None`; a panic is not representable and is
handled by the caller of this conversion. -/
def ERes.toOption : ERes α → Option α
  | ERes.panic => none
  | ERes.err => none
  | ERes.ok a => some a

/-- `plant_name.split('—').next().unwrap()` (lib.rs 203): the prefix
of the title before the first `'—'` (the whole title when no `'—'`
occurs).  No trimming is performed by the source. -/
def splitFirst (sep : Char) : List Char → List Char
  | [] => []
  | c :: rest => if c = sep then [] else c :: splitFirst sep rest

/-- Modelled from the spec: `str::trim` as the spec's "trimmed of
surrounding whitespace" (the source itself never trims), restricted to
ASCII whitespace.  Used only to compare the source's behaviour with
the spec's words. -/
def specTrim (cs : List Char) : List Char :=
  ((cs.dropWhile (fun c => c.isWhitespace)).reverse.dropWhile
    (fun c => c.isWhitespace)).reverse

/-- `str::parse::<usize>` (lib.rs 147): an optional leading `'+'`,
then one or more ASCII digits, value below `2^64`; anything else is a
parse error. -/
def parseUsizeChars (cs : List Char) : Option Nat :=
  let ds := match cs with
    | '+' :: rest => rest
    | other => other
  if ds.isEmpty then none
  else if ds.all (fun c => c.isDigit) then
    let n := ds.foldl (fun acc c => acc * 10 + (c.toNat - 48)) 0
    if n < 2 ^ 64 then some n else none
  else none

/-- `parse::<usize>` on a `String`. -/
def parseUsize (s : String) : Option Nat := parseUsizeChars s.data

/-- `page_count` (lib.rs 139-152).  The argument is the answer of the
HTML query for the `nav-links` element: `none` when the element is
absent, otherwise the texts of its children.  With the element absent
the count is 1; otherwise `children().nth(count - 3)` is taken —
`count - 3` is `usize` arithmetic, so for fewer than three children
it wraps around to a huge index and `nth` yields nothing — and its
text is parsed.  Both `unwrap`s panic: on a missing child and on
non-numeric text. -/
def page_count (nav : Option (List String)) : PRes Nat :=
  match nav with
  | none => PRes.ok 1
  | some cs =>
    match cs.get? ((cs.length + 2 ^ 64 - 3) % 2 ^ 64) with
    | none => PRes.panic
    | some txt =>
      match parseUsize txt with
      | some n => PRes.ok n
      | none => PRes.panic

/-- The per-page URLs built in `parse_category` (lib.rs 174-176):
`url + "/page/" + page` for `page` in `1..=page_count`. -/
def pagesFor (url : String) (pc : Nat) : List String :=
  (List.range' 1 pc).map (fun n => url ++ "/page/" ++ toString n)

/-- `Vec::dedup` (lib.rs 100): remove consecutive repeated elements,
keeping the first of each run. -/
def rustDedup : List String → List String
  | [] => []
  | [a] => [a]
  | a :: b :: t => if a = b then rustDedup (b :: t) else a :: rustDedup (b :: t)

/-- `Vec::sort_unstable` (lib.rs 99) on strings: a sort by the
lexicographic string order (instability is unobservable on strings). -/
def sortUrls (l : List String) : List String :=
  List.insertionSort (fun a b : String => a ≤ b) l

/-- Lines 98-100 of `scraper`: `plants_url.sort_unstable(); plants_url.dedup()`. -/
def dedupUrls (l : List String) : List String := rustDedup (sortUrls l)

/-- The answer of the HTML queries of `parse_houseplant` on one
fetched detail page (lib.rs 196-233).
* `title`: text of the `entry-title` element, when present.
* `imageNode`: the `itemprop="url image"` element when found, holding
  its `data-src` attribute when present.
* `downloadResult`: the filename `download_image` would return for
  this page's image, `none` when the download fails.
* `tableRows`: when some `td` contains "полив", the children texts of
  each `tr` row of the enclosing table body. -/
structure DetailPage where
  title : Option (List Char)
  imageNode : Option (Option String)
  downloadResult : Option (List Char)
  tableRows : Option (List (List (List Char)))
deriving DecidableEq, Repr

/-- `struct Houseplant` (lib.rs 10-15). -/
structure Houseplant where
  name : List Char
  image : List Char
  attributes : Attributes
deriving DecidableEq, Repr

/-- The external collaborators of one run: the transport plus the
HTML-query primitives (answered per URL) and the optional database.
* `front`: the front page, as the `cat-item` elements — for each, its
  first child when it has one, and that child's `href` when present
  (lib.rs 64-69); `none` = transport failure.
* `fetchCat`: a category's first page, as the `nav-links` children
  texts (`none` inner = element absent); outer `none` = transport
  failure (lib.rs 169-172).
* `fetchListing`: a listing page, as the `href`s of the
  `a[itemprop="url"]` anchors (`none` per anchor = attribute missing,
  which `unwrap` turns into a panic); outer `none` = transport failure
  (lib.rs 154-165).
* `fetchDetail`: a detail page (lib.rs 192-196); `none` = transport
  failure.
* `db`: the optional database; the predicate tells whether `insert`
  succeeds on a record (lib.rs 114-118). -/
structure World where
  front : Option (List (Option (Option String)))
  fetchCat : String → Option (Option (List String))
  fetchListing : String → Option (List (Option String))
  fetchDetail : String → Option DetailPage
  db : Option (Houseplant → Bool)

/-- The two `filter_map`s over the `cat-item` elements (lib.rs 64-69):
keep each item's first child's `href`. -/
def catUrls (items : List (Option (Option String))) : List String :=
  (items.filterMap id).filterMap id

/-- `a.get("href").unwrap()` mapped over the anchors (lib.rs 162):
`none` (= panic) as soon as one anchor lacks the attribute. -/
def readAnchors : List (Option String) → Option (List String)
  | [] => some []
  | none :: _ => none
  | some h :: rest =>
    match readAnchors rest with
    | none => none
    | some hs => some (h :: hs)

/-- `parse_titles` (lib.rs 154-165): transport failure is absorbed by
`.ok()?` into `None`; otherwise collect the anchors' `href`s, panicking
when one is missing. -/
def parse_titles (w : World) (url : String) : PRes (Option (List String)) :=
  match w.fetchListing url with
  | none => PRes.ok none
  | some anchors =>
    match readAnchors anchors with
    | none => PRes.panic
    | some hrefs => PRes.ok (some hrefs)

/-- The fan-out of `parse_category` over its page URLs (lib.rs
179-187) followed by `.flatten().flatten()`: `None` results vanish,
the remaining URL lists are concatenated, and any panic aborts. -/
def collectTitles (w : World) : List String → PRes (List String)
  | [] => PRes.ok []
  | p :: ps =>
    match parse_titles w p with
    | PRes.panic => PRes.panic
    | PRes.ok none => collectTitles w ps
    | PRes.ok (some l) =>
      match collectTitles w ps with
      | PRes.panic => PRes.panic
      | PRes.ok rest => PRes.ok (l ++ rest)

/-- `parse_category` (lib.rs 167-190): transport failure on the
category's first page is absorbed by `.ok()?` into `None`; otherwise
resolve the page count (which may panic), build the page URLs and
collect the plant URLs from every page. -/
def parse_category (w : World) (url : String) : PRes (Option (List String)) :=
  match w.fetchCat url with
  | none => PRes.ok none
  | some nav =>
    match page_count nav with
    | PRes.panic => PRes.panic
    | PRes.ok pc =>
      match collectTitles w (pagesFor url pc) with
      | PRes.panic => PRes.panic
      | PRes.ok urls => PRes.ok (some urls)

/-- Stage B of `scraper` (lib.rs 82-94): `parse_category` over every
category URL, then `.flatten().flatten()`. -/
def stageB (w : World) : List String → PRes (List String)
  | [] => PRes.ok []
  | u :: us =>
    match parse_category w u with
    | PRes.panic => PRes.panic
    | PRes.ok none => stageB w us
    | PRes.ok (some l) =>
      match stageB w us with
      | PRes.panic => PRes.panic
      | PRes.ok rest => PRes.ok (l ++ rest)

/-- `tr.children()` read as exactly two cells (lib.rs 224-232): the
first two children are the (label, value) pair; fewer than two
children hits `expect("can't find td")`, a panic. -/
def readRow : List (List Char) → Option Attribute
  | t1 :: t2 :: _ => some ⟨t1, t2⟩
  | _ => none

/-- The row loop of `parse_houseplant` (lib.rs 223-233); `none` =
panic on some malformed row. -/
def readRows : List (List (List Char)) → Option (List Attribute)
  | [] => some []
  | r :: rs =>
    match readRow r, readRows rs with
    | some a, some l => some (a :: l)
    | _, _ => none

/-- `parse_houseplant` (lib.rs 192-243).
* transport failure on the detail page → `Err` (the two `?`s);
* missing title element → `expect("Can't find title")`, a panic;
* the name is the title text split at the first `'—'` (no trim);
* missing image element → `Err` (`ok_or(anyhow!(..))?`);
* image element without `data-src` → `expect(..)`, a panic;
* failed image download → `Err` (the `?` on `download_image`);
* no `td` containing "полив" → `Err("Plant table not found")`;
* a table row with fewer than two cells → `expect(..)`, a panic;
* otherwise the record is assembled from the classification. -/
def parse_houseplant (w : World) (url : String) : ERes Houseplant :=
  match w.fetchDetail url with
  | none => ERes.err
  | some page =>
    match page.title with
    | none => ERes.panic
    | some t =>
      match page.imageNode with
      | none => ERes.err
      | some none => ERes.panic
      | some (some _) =>
        match page.downloadResult with
        | none => ERes.err
        | some filename =>
          match page.tableRows with
          | none => ERes.err
          | some rows =>
            match readRows rows with
            | none => ERes.panic
            | some list =>
              ERes.ok ⟨splitFirst '—' t, filename, parse_attributes list⟩

/-- `db.insert(plant)` guarded by `if let Some(db)` (lib.rs 114-118):
`true` when there is no database or the insert succeeds. -/
def insertOk (w : World) (h : Houseplant) : Bool :=
  match w.db with
  | none => true
  | some f => f h

/-- `insertOk` lifted to an extraction result (failed and panicked
extractions never reach the insert). -/
def insertOkRes (w : World) : ERes Houseplant → Bool
  | ERes.ok h => insertOk w h
  | _ => true

/-- Stage C of `scraper` (lib.rs 109-130): `parse_houseplant(url).ok()`
per URL with the successful records inserted into the database
(`expect` = panic on insert failure) and collected by `.flatten()`. -/
def stageC (w : World) : List String → PRes (List Houseplant)
  | [] => PRes.ok []
  | u :: us =>
    match parse_houseplant w u with
    | ERes.panic => PRes.panic
    | ERes.err => stageC w us
    | ERes.ok h =>
      if insertOk w h then
        match stageC w us with
        | PRes.panic => PRes.panic
        | PRes.ok rest => PRes.ok (h :: rest)
      else PRes.panic

/-- `scraper` (lib.rs 54-137): fetch the front page (failure = the
run's only `Err` exit), read the category URLs, run stage B, sort and
deduplicate the plant URLs, run stage C.  The fan-outs are modelled
sequentially in input order; the source's `buffer_unordered` collects
in completion order, a difference invisible to the content-level
properties proved below (and erased before stage C by the sort). -/
def scraper (w : World) : ERes (List Houseplant) :=
  match w.front with
  | none => ERes.err
  | some items =>
    match stageB w (catUrls items) with
    | PRes.panic => ERes.panic
    | PRes.ok plants_url =>
      match stageC w (dedupUrls plants_url) with
      | PRes.panic => ERes.panic
      | PRes.ok res => ERes.ok res

/-! ## Helper lemmas on the classifier -/

theorem findSlot_eq_none_iff (ks : List (Slot × List Char)) (l : List Char) :
    findSlot ks l = none ↔ ∀ pr ∈ ks, pr.2.isPrefixOf l = false := by
  induction ks with
  | nil => simp [findSlot]
  | cons p rest ih =>
    obtain ⟨s, kw⟩ := p
    simp only [findSlot]
    by_cases h : kw.isPrefixOf l = true
    · simp [h]
    · simp only [Bool.not_eq_true] at h
      simp [h, ih]

theorem findSlot_eq_some (ks : List (Slot × List Char)) (l : List Char) (s : Slot)
    (h : findSlot ks l = some s) : ∃ kw, (s, kw) ∈ ks ∧ kw.isPrefixOf l = true := by
  induction ks with
  | nil => simp [findSlot] at h
  | cons p rest ih =>
    obtain ⟨s', kw'⟩ := p
    simp only [findSlot] at h
    by_cases hp : kw'.isPrefixOf l = true
    · simp only [hp, if_pos] at h
      exact ⟨kw', by simp [← Option.some_inj.1 h], hp⟩
    · simp only [Bool.not_eq_true] at hp
      simp only [hp, Bool.false_eq_true, if_false] at h
      obtain ⟨kw, hmem, hpre⟩ := ih h
      exact ⟨kw, List.mem_cons_of_mem _ hmem, hpre⟩

theorem isPrefixOf_total : ∀ (l p q : List Char),
    p.isPrefixOf l = true → q.isPrefixOf l = true →
    p.isPrefixOf q = true ∨ q.isPrefixOf p = true := by
  intro l
  induction l with
  | nil =>
    intro p q hp hq
    cases p with
    | nil => left; simp [List.isPrefixOf]
    | cons a as => simp [List.isPrefixOf] at hp
  | cons c t ih =>
    intro p q hp hq
    cases p with
    | nil => left; simp [List.isPrefixOf]
    | cons a as =>
      cases q with
      | nil => right; simp [List.isPrefixOf]
      | cons b bs =>
        simp only [List.isPrefixOf, Bool.and_eq_true, beq_iff_eq] at hp hq
        rcases ih as bs hp.2 hq.2 with h | h
        · left; simp [List.isPrefixOf, hp.1, hq.1, h]
        · right; simp [List.isPrefixOf, hp.1, hq.1, h]

/-- No regex alternative is empty. -/
theorem keywords_word_ne_nil : ∀ pr ∈ keywords, pr.2 ≠ [] := by decide

/-- No regex alternative is a prefix of a different one, so at most
one alternative can match at a given position of the haystack. -/
theorem keywords_no_overlap :
    ∀ pr1 ∈ keywords, ∀ pr2 ∈ keywords,
      pr1.2.isPrefixOf pr2.2 = true → pr1 = pr2 := by decide

theorem matchAt_unique {l : List Char} {x s : Slot} {kw : List Char}
    (hm : matchAt l = some x) (hmem : (s, kw) ∈ keywords)
    (hpre : kw.isPrefixOf l = true) : x = s := by
  obtain ⟨kwx, hmemx, hprex⟩ := findSlot_eq_some _ _ _ hm
  rcases isPrefixOf_total l kwx kw hprex hpre with h | h
  · exact congrArg Prod.fst (keywords_no_overlap _ hmemx _ hmem h)
  · exact (congrArg Prod.fst (keywords_no_overlap _ hmem _ hmemx h)).symm

theorem containsSub_of_isPrefixOf {kw l : List Char}
    (h : kw.isPrefixOf l = true) : containsSub kw l = true := by
  cases l with
  | nil => simpa [containsSub] using h
  | cons c rest => simp [containsSub, h]

/-- Leftmost-first: if an alternative matches at position `i` and no
alternative matches at any earlier position, the regex reports that
alternative's capture group. -/
theorem reCaptures_leftmost {s : Slot} {kw : List Char} (hmem : (s, kw) ∈ keywords) :
    ∀ (i : Nat) (low : List Char),
      kw.isPrefixOf (low.drop i) = true →
      (∀ j, j < i → ∀ pr ∈ keywords, pr.2.isPrefixOf (low.drop j) = false) →
      reCaptures low = some s := by
  intro i
  induction i with
  | zero =>
    intro low hpre _
    simp only [List.drop_zero] at hpre
    cases low with
    | nil =>
      cases kw with
      | nil => exact absurd rfl (keywords_word_ne_nil _ hmem)
      | cons a as => simp [List.isPrefixOf] at hpre
    | cons c rest =>
      cases hm : matchAt (c :: rest) with
      | none =>
        rw [matchAt, findSlot_eq_none_iff] at hm
        have hf : kw.isPrefixOf (c :: rest) = false := hm (s, kw) hmem
        rw [hpre] at hf
        exact Bool.noConfusion hf
      | some x =>
        have hx := matchAt_unique hm hmem hpre
        simp [reCaptures, hm, hx]
  | succ i ih =>
    intro low hpre hbefore
    cases low with
    | nil =>
      simp only [List.drop_nil] at hpre
      cases kw with
      | nil => exact absurd rfl (keywords_word_ne_nil _ hmem)
      | cons a as => simp [List.isPrefixOf] at hpre
    | cons c rest =>
      have h0 : matchAt (c :: rest) = none := by
        rw [matchAt, findSlot_eq_none_iff]
        intro pr hpr
        simpa using hbefore 0 (Nat.succ_pos i) pr hpr
      have htail : reCaptures rest = some s := by
        apply ih rest
        · simpa [List.drop_succ_cons] using hpre
        · intro j hj pr hpr
          simpa [List.drop_succ_cons] using
            hbefore (j + 1) (Nat.succ_lt_succ hj) pr hpr
      simp [reCaptures, h0, htail]

/-- A label containing exactly one alternative is classified to that
alternative's capture group. -/
theorem reCaptures_eq_of_unique {s : Slot} {kw : List Char} (hmem : (s, kw) ∈ keywords) :
    ∀ low : List Char,
      containsSub kw low = true →
      (∀ pr ∈ keywords, containsSub pr.2 low = true → pr = (s, kw)) →
      reCaptures low = some s := by
  intro low
  induction low with
  | nil =>
    intro hc _
    cases kw with
    | nil => exact absurd rfl (keywords_word_ne_nil _ hmem)
    | cons a as => simp [containsSub, List.isPrefixOf] at hc
  | cons c rest ih =>
    intro hc huniq
    cases hm : matchAt (c :: rest) with
    | some x =>
      obtain ⟨kwx, hmemx, hprex⟩ := findSlot_eq_some _ _ _ hm
      have := huniq (x, kwx) hmemx (containsSub_of_isPrefixOf hprex)
      have hx : x = s := congrArg Prod.fst this
      simp [reCaptures, hm, hx]
    | none =>
      have hnp : kw.isPrefixOf (c :: rest) = false := by
        rw [matchAt, findSlot_eq_none_iff] at hm
        exact hm (s, kw) hmem
      have hc' : containsSub kw rest = true := by
        simp only [containsSub, hnp, Bool.false_or] at hc
        exact hc
      have htail := ih hc' (fun pr hpr hcr =>
        huniq pr hpr (by simp [containsSub, hcr]))
      simp [reCaptures, hm, htail]

/-- `reCaptures` reports no match when no alternative occurs. -/
theorem reCaptures_eq_none :
    ∀ low : List Char,
      (∀ pr ∈ keywords, containsSub pr.2 low = false) →
      reCaptures low = none := by
  intro low
  induction low with
  | nil => intro _; rfl
  | cons c rest ih =>
    intro h
    have h0 : matchAt (c :: rest) = none := by
      rw [matchAt, findSlot_eq_none_iff]
      intro pr hpr
      have := h pr hpr
      simp only [containsSub, Bool.or_eq_false_iff] at this
      exact this.1
    have htail : reCaptures rest = none := by
      apply ih
      intro pr hpr
      have := h pr hpr
      simp only [containsSub, Bool.or_eq_false_iff] at this
      exact this.2
    simp [reCaptures, h0, htail]

/-- The capture group a row is routed to: the regex result, with the
catch-all `features` for an unmatched label. -/
def targetOf (item : Attribute) : Slot :=
  (reCaptures (toLowerList item.parameter)).getD Slot.features

theorem applyItem_eq_setSlot (attrs : Attributes) (item : Attribute) :
    applyItem attrs item = attrs.setSlot (targetOf item) item := by
  unfold applyItem targetOf
  cases h : reCaptures (toLowerList item.parameter) with
  | none => rfl
  | some s => cases s <;> rfl

theorem slot_setSlot_self (a : Attributes) (s : Slot) (x : Attribute) :
    (a.setSlot s x).slot s = some x := by
  cases s <;> rfl

theorem slot_setSlot_ne (a : Attributes) {s t : Slot} (x : Attribute) (h : t ≠ s) :
    (a.setSlot s x).slot t = a.slot t := by
  cases s <;> cases t <;> first
    | exact absurd rfl h
    | rfl

theorem slot_empty (t : Slot) : ({} : Attributes).slot t = none := by
  cases t <;> rfl

/-- The classification loop routes the last row of an all-unmatched
row list to `features`. -/
theorem foldl_features_last :
    ∀ (l : List Attribute) (r : Attribute) (init : Attributes),
      (∀ a ∈ l ++ [r], reCaptures (toLowerList a.parameter) = none) →
      ((l ++ [r]).foldl applyItem init).features = some r := by
  intro l
  induction l with
  | nil =>
    intro r init h
    have hr := h r (by simp)
    show (applyItem init r).features = some r
    simp [applyItem, hr]
  | cons a l ih =>
    intro r init h
    show ((l ++ [r]).foldl applyItem (applyItem init a)).features = some r
    exact ih r _ (fun x hx => h x (by simp at hx ⊢; tauto))

/-! ## Claims C1-C3: the attribute classifier -/

/-- C1: `parse_attributes` is a pure function; a row whose
(lower-cased) label contains exactly one of the recognized keyword
alternatives populates exactly the corresponding slot, all other
slots staying absent, and a row whose label contains no alternative
populates the `features` slot. -/
theorem claim_C1 :
    (∀ (p v : List Char) (s : Slot) (kw : List Char),
      (s, kw) ∈ keywords →
      containsSub kw (toLowerList p) = true →
      (∀ pr ∈ keywords, containsSub pr.2 (toLowerList p) = true → pr = (s, kw)) →
      ∀ t : Slot, (parse_attributes [⟨p, v⟩]).slot t =
        if t = s then some ⟨p, v⟩ else none)
  ∧ (∀ (p v : List Char),
      (∀ pr ∈ keywords, containsSub pr.2 (toLowerList p) = false) →
      ∀ t : Slot, (parse_attributes [⟨p, v⟩]).slot t =
        if t = Slot.features then some ⟨p, v⟩ else none) := by
  constructor
  · intro p v s kw hmem hc huniq t
    have hre : reCaptures (toLowerList p) = some s :=
      reCaptures_eq_of_unique hmem _ hc huniq
    have e : parse_attributes [⟨p, v⟩] = applyItem {} ⟨p, v⟩ := rfl
    rw [e, applyItem_eq_setSlot]
    have ht : targetOf ⟨p, v⟩ = s := by simp [targetOf, hre]
    rw [ht]
    by_cases h : t = s
    · subst h; rw [slot_setSlot_self, if_pos rfl]
    · rw [slot_setSlot_ne _ _ h, slot_empty, if_neg h]
  · intro p v hnone t
    have hre : reCaptures (toLowerList p) = none := reCaptures_eq_none _ hnone
    have e : parse_attributes [⟨p, v⟩] = applyItem {} ⟨p, v⟩ := rfl
    rw [e, applyItem_eq_setSlot]
    have ht : targetOf ⟨p, v⟩ = Slot.features := by simp [targetOf, hre]
    rw [ht]
    by_cases h : t = Slot.features
    · subst h; rw [slot_setSlot_self, if_pos rfl]
    · rw [slot_setSlot_ne _ _ h, slot_empty, if_neg h]

theorem claim_C1_witness :
    (∀ t : Slot, (parse_attributes [⟨"Полив".data, "умеренный".data⟩]).slot t =
      if t = Slot.watering then some ⟨"Полив".data, "умеренный".data⟩ else none)
  ∧ (∀ t : Slot, (parse_attributes [⟨"Цветение".data, "май".data⟩]).slot t =
      if t = Slot.features then some ⟨"Цветение".data, "май".data⟩ else none) :=
  ⟨claim_C1.1 "Полив".data "умеренный".data Slot.watering "полив".data
      (by decide) (by decide) (by decide),
   claim_C1.2 "Цветение".data "май".data (by decide)⟩

/-- C2: last-write-wins.  Two rows routed to the same recognized
capture group leave the second row's pair in that slot, and a row
sequence consisting of unmatched rows leaves the last row in the
`features` slot. -/
theorem claim_C2 :
    (∀ (r1 r2 : Attribute) (s : Slot),
      reCaptures (toLowerList r1.parameter) = some s →
      reCaptures (toLowerList r2.parameter) = some s →
      (parse_attributes [r1, r2]).slot s = some r2)
  ∧ (∀ (l : List Attribute) (r : Attribute),
      (∀ a ∈ l ++ [r], reCaptures (toLowerList a.parameter) = none) →
      (parse_attributes (l ++ [r])).features = some r) := by
  constructor
  · intro r1 r2 s _ h2
    have e : parse_attributes [r1, r2] = applyItem (applyItem {} r1) r2 := rfl
    rw [e, applyItem_eq_setSlot]
    have ht : targetOf r2 = s := by simp [targetOf, h2]
    rw [ht, slot_setSlot_self]
  · intro l r h
    exact foldl_features_last l r {} h

theorem claim_C2_witness :
    (parse_attributes [⟨"Полив зимой".data, "редкий".data⟩,
        ⟨"Полив летом".data, "обильный".data⟩]).slot Slot.watering =
      some ⟨"Полив летом".data, "обильный".data⟩
  ∧ (parse_attributes [⟨"Цветение".data, "май".data⟩,
        ⟨"Родина".data, "Бразилия".data⟩]).features =
      some ⟨"Родина".data, "Бразилия".data⟩ :=
  ⟨claim_C2.1 ⟨"Полив зимой".data, "редкий".data⟩ ⟨"Полив летом".data, "обильный".data⟩
      Slot.watering (by decide) (by decide),
   claim_C2.2 [⟨"Цветение".data, "май".data⟩] ⟨"Родина".data, "Бразилия".data⟩ (by decide)⟩

/-- C3 as stated is false: the label "Полив и температура" contains
both the `watering` keyword (at position 0) and the `temperature`
keyword (later), yet the row lands in `watering`, not in the
priority-earlier `temperature` — the regex engine prefers the
leftmost occurrence, not the earliest-listed category. -/
theorem claim_C3_counterexample :
    containsSub "температ".data (toLowerList "Полив и температура".data) = true
  ∧ containsSub "полив".data (toLowerList "Полив и температура".data) = true
  ∧ (parse_attributes [⟨"Полив и температура".data, "18 C".data⟩]).temperature = none
  ∧ (parse_attributes [⟨"Полив и температура".data, "18 C".data⟩]).watering =
      some ⟨"Полив и температура".data, "18 C".data⟩ := by
  decide

/-- C3 amended: when keywords of several categories occur in a label,
the category whose keyword occurrence starts leftmost in the
lower-cased label wins (no two distinct alternatives can match at the
same position, as `keywords_no_overlap` shows); the pattern priority
order is not consulted across different positions. -/
theorem claim_C3_amended :
    ∀ (p v : List Char) (s : Slot) (kw : List Char) (i : Nat),
      (s, kw) ∈ keywords →
      kw.isPrefixOf ((toLowerList p).drop i) = true →
      (∀ j, j < i → ∀ pr ∈ keywords, pr.2.isPrefixOf ((toLowerList p).drop j) = false) →
      ∀ t : Slot, (parse_attributes [⟨p, v⟩]).slot t =
        if t = s then some ⟨p, v⟩ else none := by
  intro p v s kw i hmem hpre hbefore t
  have hre : reCaptures (toLowerList p) = some s :=
    reCaptures_leftmost hmem i _ hpre hbefore
  have e : parse_attributes [⟨p, v⟩] = applyItem {} ⟨p, v⟩ := rfl
  rw [e, applyItem_eq_setSlot]
  have ht : targetOf ⟨p, v⟩ = s := by simp [targetOf, hre]
  rw [ht]
  by_cases h : t = s
  · subst h; rw [slot_setSlot_self, if_pos rfl]
  · rw [slot_setSlot_ne _ _ h, slot_empty, if_neg h]

theorem claim_C3_witness :
    (parse_attributes [⟨"Полив и температура".data, "летом".data⟩]).slot Slot.watering =
      some ⟨"Полив и температура".data, "летом".data⟩
  ∧ (parse_attributes [⟨"Полив и температура".data, "летом".data⟩]).slot Slot.temperature =
      none :=
  ⟨(claim_C3_amended "Полив и температура".data "летом".data Slot.watering "полив".data 0
      (by decide) (by decide) (fun j hj => absurd hj (Nat.not_lt_zero j))
      Slot.watering).trans (by decide),
   (claim_C3_amended "Полив и температура".data "летом".data Slot.watering "полив".data 0
      (by decide) (by decide) (fun j hj => absurd hj (Nat.not_lt_zero j))
      Slot.temperature).trans (by decide)⟩

/-! ## Claim C4: global URL deduplication -/

theorem mem_rustDedup : ∀ (l : List String) (x : String), x ∈ rustDedup l ↔ x ∈ l := by
  intro l
  induction l with
  | nil => simp [rustDedup]
  | cons a t ih =>
    cases t with
    | nil => simp [rustDedup]
    | cons b t' =>
      intro x
      simp only [rustDedup]
      split
      · next hab =>
        rw [ih x]
        subst hab
        simp [List.mem_cons]
      · next _ => simp [List.mem_cons, ih x]

theorem rustDedup_nodup :
    ∀ l : List String, l.Sorted (fun a b : String => a ≤ b) → (rustDedup l).Nodup := by
  intro l
  induction l with
  | nil => intro _; simp [rustDedup]
  | cons a t ih =>
    cases t with
    | nil => intro _; simp [rustDedup]
    | cons b t' =>
      intro hs
      have hcons := List.sorted_cons.1 hs
      have hab : a ≤ b := hcons.1 b (by simp)
      have hs' : List.Sorted (fun a b : String => a ≤ b) (b :: t') := hcons.2
      simp only [rustDedup]
      split
      · exact ih hs'
      · next hab' =>
        refine List.nodup_cons.2 ⟨?_, ih hs'⟩
        intro hmem
        have hmem' : a ∈ b :: t' := (mem_rustDedup _ a).1 hmem
        have hba : b ≤ a := by
          rcases List.mem_cons.1 hmem' with h | h
          · exact le_of_eq h.symm
          · exact (List.sorted_cons.1 hs').1 a h
        exact hab' (le_antisymm hab hba)

/-- C4: `plants_url.sort_unstable(); plants_url.dedup()` leaves a
duplicate-free list with exactly the URLs of the input, each exactly
once — in particular a URL contributed by two categories reaches
stage C exactly once. -/
theorem claim_C4 :
    ∀ l : List String,
      (dedupUrls l).Nodup
      ∧ (∀ x, x ∈ dedupUrls l ↔ x ∈ l)
      ∧ (∀ x, x ∈ l → (dedupUrls l).count x = 1) := by
  intro l
  have hsorted : (sortUrls l).Sorted (fun a b : String => a ≤ b) :=
    List.sorted_insertionSort _ l
  have hnd : (dedupUrls l).Nodup := rustDedup_nodup _ hsorted
  have hmem : ∀ x, x ∈ dedupUrls l ↔ x ∈ l := by
    intro x
    rw [dedupUrls, mem_rustDedup, sortUrls]
    exact List.mem_insertionSort _
  exact ⟨hnd, hmem, fun x hx => List.count_eq_one_of_mem hnd ((hmem x).2 hx)⟩

theorem claim_C4_witness :
    "b" ∈ ["b", "a", "b"] ∧ (dedupUrls ["b", "a", "b"]).count "b" = 1 :=
  ⟨by decide, (claim_C4 ["b", "a", "b"]).2.2 "b" (by decide)⟩

/-! ## Claims C5 and C10: pagination resolution -/

theorem get?_eq_none_of_le : ∀ (l : List String) (n : Nat), l.length ≤ n → l.get? n = none := by
  intro l
  induction l with
  | nil => intro n _; rfl
  | cons a t ih =>
    intro n h
    cases n with
    | zero => simp at h
    | succ m => exact ih m (by simpa using h)

theorem lt_of_get?_eq_some :
    ∀ (l : List String) (n : Nat) (x : String), l.get? n = some x → n < l.length := by
  intro l
  induction l with
  | nil => intro n x h; exact absurd h (by simp)
  | cons a t ih =>
    intro n x h
    cases n with
    | zero => exact Nat.succ_pos _
    | succ m => exact Nat.succ_lt_succ (ih m x h)

/-- C5: a category page with no `nav-links` element resolves to one
page, and the single page URL is `<url>/page/1`; with the element
present and its third-from-last child's text parsing as `N` (and a
`usize`-representable child count), the resolution yields exactly `N`
page URLs, the `i`-th being `<url>/page/<i+1>`. -/
theorem claim_C5 :
    (page_count none = PRes.ok 1 ∧ ∀ url : String, pagesFor url 1 = [url ++ "/page/" ++ "1"])
  ∧ (∀ (cs : List String) (txt : String) (N : Nat),
      cs.length < 2 ^ 64 → 3 ≤ cs.length →
      cs.get? (cs.length - 3) = some txt → parseUsize txt = some N →
      page_count (some cs) = PRes.ok N
      ∧ ∀ url : String, (pagesFor url N).length = N
        ∧ ∀ (i : Nat) (hi : i < (pagesFor url N).length),
            (pagesFor url N).get ⟨i, hi⟩ = url ++ "/page/" ++ toString (i + 1)) := by
  constructor
  · exact ⟨rfl, fun url => rfl⟩
  · intro cs txt N hlen h3 hget hparse
    have h2 : (2 : ℕ) ^ 64 = 18446744073709551616 := by norm_num
    have hidx : (cs.length + 2 ^ 64 - 3) % 2 ^ 64 = cs.length - 3 := by
      rw [h2] at hlen ⊢
      omega
    constructor
    · simp only [page_count, hidx, hget, hparse]
    · intro url
      refine ⟨by simp [pagesFor], ?_⟩
      intro i hi
      simp only [pagesFor] at hi
      simp only [pagesFor, List.get_eq_getElem, List.getElem_map, List.getElem_range'_1]
      rw [Nat.add_comm]

theorem claim_C5_witness :
    page_count (some ["1", "2", "5", "→", "Далее"]) = PRes.ok 5
  ∧ (pagesFor "c" 5).length = 5 :=
  ⟨(claim_C5.2 ["1", "2", "5", "→", "Далее"] "5" 5 (by decide) (by decide)
      (by decide) (by decide)).1,
   ((claim_C5.2 ["1", "2", "5", "→", "Далее"] "5" 5 (by decide) (by decide)
      (by decide) (by decide)).2 "c").1⟩

/-- C10: `page_count` panics (both `unwrap` branches are reachable)
when the `nav-links` element is present with fewer than three
children, or when the third-from-last child's text does not parse as
a `usize`; it returns normally only when the element is absent or the
third-from-last child is numeric. -/
theorem claim_C10 :
    page_count (some ["«", "»"]) = PRes.panic
  ∧ page_count (some ["Назад", "2", "3"]) = PRes.panic
  ∧ (∀ cs : List String, cs.length < 3 → page_count (some cs) = PRes.panic)
  ∧ (∀ (cs : List String) (txt : String), cs.length < 2 ^ 64 → 3 ≤ cs.length →
      cs.get? (cs.length - 3) = some txt → parseUsize txt = none →
      page_count (some cs) = PRes.panic)
  ∧ (∀ (cs : List String) (n : Nat), cs.length < 2 ^ 64 →
      page_count (some cs) = PRes.ok n →
      3 ≤ cs.length ∧ ∃ txt, cs.get? (cs.length - 3) = some txt ∧ parseUsize txt = some n) := by
  have h2 : (2 : ℕ) ^ 64 = 18446744073709551616 := by norm_num
  refine ⟨by decide, by decide, ?_, ?_, ?_⟩
  · intro cs h
    have hidx : cs.length ≤ (cs.length + 2 ^ 64 - 3) % 2 ^ 64 := by
      rw [h2]
      omega
    simp only [page_count, get?_eq_none_of_le cs _ hidx]
  · intro cs txt hlen h3 hget hparse
    have hidx : (cs.length + 2 ^ 64 - 3) % 2 ^ 64 = cs.length - 3 := by
      rw [h2] at hlen ⊢
      omega
    simp only [page_count, hidx, hget, hparse]
  · intro cs n hlen hok
    simp only [page_count] at hok
    cases hget : cs.get? ((cs.length + 2 ^ 64 - 3) % 2 ^ 64) with
    | none => rw [hget] at hok; exact absurd hok (by simp)
    | some txt =>
      rw [hget] at hok
      dsimp only at hok
      have hlt := lt_of_get?_eq_some _ _ _ hget
      have h3 : 3 ≤ cs.length := by
        by_contra hc
        rw [h2] at hlen hlt
        omega
      have hidx : (cs.length + 2 ^ 64 - 3) % 2 ^ 64 = cs.length - 3 := by
        rw [h2] at hlen ⊢
        omega
      rw [hidx] at hget
      cases hparse : parseUsize txt with
      | none => rw [hparse] at hok; exact absurd hok (by simp)
      | some m =>
        rw [hparse] at hok
        have hm : m = n := by
          cases hok
          rfl
        exact ⟨h3, txt, hget, by rw [hparse, hm]⟩

theorem claim_C10_witness :
    3 ≤ (["4", "x", "y"] : List String).length
  ∧ ∃ txt, (["4", "x", "y"] : List String).get? ((["4", "x", "y"] : List String).length - 3) =
      some txt ∧ parseUsize txt = some 4 :=
  claim_C10.2.2.2.2 ["4", "x", "y"] 4 (by decide) (by decide)

/-! ## Claim C7: category-local transport failure -/

/-- C7: a transport failure on a category's first page makes
`parse_category` return `None`; such a category contributes nothing to
stage B's collected URL list wherever it appears, and introduces no
run-level failure (the stage's outcome is the same as without it). -/
theorem claim_C7 :
    ∀ (w : World) (u : String),
      w.fetchCat u = none →
      parse_category w u = PRes.ok none
      ∧ ∀ pre post : List String, stageB w (pre ++ u :: post) = stageB w (pre ++ post) := by
  intro w u h
  have hpc : parse_category w u = PRes.ok none := by simp [parse_category, h]
  refine ⟨hpc, ?_⟩
  intro pre post
  induction pre with
  | nil =>
    simp only [List.nil_append, stageB, hpc]
  | cons a pre ih =>
    simp only [List.cons_append, stageB]
    cases parse_category w a with
    | panic => rfl
    | ok o =>
      cases o with
      | none => exact ih
      | some l =>
        show (match stageB w (pre ++ u :: post) with
              | PRes.panic => PRes.panic
              | PRes.ok rest => PRes.ok (l ++ rest)) =
            (match stageB w (pre ++ post) with
              | PRes.panic => PRes.panic
              | PRes.ok rest => PRes.ok (l ++ rest))
        rw [ih]

/-- A world whose category fetches all fail at the transport level. -/
def wNoCat : World :=
  { front := some []
  , fetchCat := fun _ => none
  , fetchListing := fun _ => none
  , fetchDetail := fun _ => none
  , db := none }

theorem claim_C7_witness :
    parse_category wNoCat "cat" = PRes.ok none
  ∧ stageB wNoCat (["a"] ++ "cat" :: ["b"]) = stageB wNoCat (["a"] ++ ["b"]) :=
  ⟨(claim_C7 wNoCat "cat" rfl).1, (claim_C7 wNoCat "cat" rfl).2 ["a"] ["b"]⟩

/-! ## Claims C6 and C8: detail extraction -/

/-- A detail page on which every extraction step succeeds. -/
def goodPage : DetailPage :=
  { title := some "Фикус".data
  , imageNode := some (some "img")
  , downloadResult := some "1.jpg".data
  , tableRows := some [["Полив".data, "часто".data]] }

/-- A detail page whose HTML lacks the `entry-title` element. -/
def pageNoTitle : DetailPage :=
  { title := none
  , imageNode := some (some "img")
  , downloadResult := some "1.jpg".data
  , tableRows := some [["Полив".data, "часто".data]] }

/-- A world where the detail URL "u" has no title element and every
other detail URL extracts fine. -/
def wNoTitle : World :=
  { front := some []
  , fetchCat := fun _ => none
  , fetchListing := fun _ => none
  , fetchDetail := fun u => if u = "u" then some pageNoTitle else some goodPage
  , db := none }

/-- C6 as stated is false: a detail page whose HTML lacks a title
element does not fail with an item-local error — the source hits
`expect("Can't find title")`, a panic that aborts the whole run: with
the two detail URLs ["u", "v"], where "u" lacks a title and "v"
extracts successfully, stage C panics instead of yielding the one
successful record. -/
theorem claim_C6_counterexample :
    parse_houseplant wNoTitle "u" = ERes.panic
  ∧ parse_houseplant wNoTitle "v" =
      ERes.ok ⟨"Фикус".data, "1.jpg".data, { watering := some ⟨"Полив".data, "часто".data⟩ }⟩
  ∧ stageC wNoTitle ["u", "v"] = PRes.panic := by
  decide

/-- C6 amended: a missing title element is a panic that aborts the
run (see the counterexample); for detail URLs whose extraction fails
with an error (`Err`: transport failure, missing image element,
failed image download, missing attribute table) the failure is
item-local — when no URL panics and no database insert fails, the run
completes and the result list holds exactly the records of the URLs
that extracted successfully, in order. -/
theorem claim_C6_amended :
    ∀ (w : World) (urls : List String),
      (∀ u ∈ urls, parse_houseplant w u ≠ ERes.panic) →
      (∀ u ∈ urls, insertOkRes w (parse_houseplant w u) = true) →
      stageC w urls = PRes.ok (urls.filterMap (fun u => (parse_houseplant w u).toOption)) := by
  intro w urls
  induction urls with
  | nil => intro _ _; rfl
  | cons u us ih =>
    intro hnp hins
    have hu := hnp u (by simp)
    have hiu := hins u (by simp)
    have ihr := ih (fun x hx => hnp x (by simp [hx])) (fun x hx => hins x (by simp [hx]))
    simp only [stageC, List.filterMap_cons]
    cases hp : parse_houseplant w u with
    | panic => exact absurd hp hu
    | err => exact ihr
    | ok h =>
      rw [hp] at hiu
      have hok : insertOk w h = true := hiu
      simp [hok, ERes.toOption, ihr]

/-- A world where the detail URL "bad" fails at the transport level
and every other detail URL extracts fine. -/
def wOneBad : World :=
  { front := some []
  , fetchCat := fun _ => none
  , fetchListing := fun _ => none
  , fetchDetail := fun u => if u = "bad" then none else some goodPage
  , db := none }

theorem claim_C6_witness :
    stageC wOneBad ["p1", "bad", "p2"] =
      PRes.ok [⟨"Фикус".data, "1.jpg".data, { watering := some ⟨"Полив".data, "часто".data⟩ }⟩,
               ⟨"Фикус".data, "1.jpg".data, { watering := some ⟨"Полив".data, "часто".data⟩ }⟩] :=
  (claim_C6_amended wOneBad ["p1", "bad", "p2"] (by decide) (by decide)).trans (by decide)

/-- `splitFirst` cuts the list exactly at the first occurrence of the
separator: the result never contains the separator, is an initial
segment of the input, and what was cut off is empty or starts with
the separator. -/
theorem splitFirst_spec :
    ∀ (sep : Char) (t : List Char),
      (sep ∈ splitFirst sep t → False)
      ∧ ∃ rest, t = splitFirst sep t ++ rest ∧ (rest = [] ∨ ∃ r', rest = sep :: r') := by
  intro sep t
  induction t with
  | nil => exact ⟨by simp [splitFirst], [], rfl, Or.inl rfl⟩
  | cons c cs ih =>
    by_cases h : c = sep
    · subst h
      refine ⟨by simp [splitFirst], c :: cs, by simp [splitFirst], Or.inr ⟨cs, rfl⟩⟩
    · obtain ⟨hmem, rest, heq, hh⟩ := ih
      refine ⟨?_, rest, ?_, hh⟩
      · intro hm
        simp only [splitFirst, if_neg h, List.mem_cons] at hm
        rcases hm with hm | hm
        · exact h hm.symm
        · exact hmem hm
      · simp only [splitFirst, if_neg h, List.cons_append]
        exact congrArg (c :: ·) heq

/-- A world whose detail pages carry a title with the '—' separator
and surrounding whitespace. -/
def wDashTitle : World :=
  { front := some []
  , fetchCat := fun _ => none
  , fetchListing := fun _ => none
  , fetchDetail := fun _ => some
      { title := some "Фикус — уход в домашних условиях".data
      , imageNode := some (some "img")
      , downloadResult := some "1.jpg".data
      , tableRows := some [["Полив".data, "часто".data]] }
  , db := none }

/-- C8 as stated demands trimming, which the source does not do: on
the title "Фикус — уход в домашних условиях" the extracted record's
name is "Фикус " (trailing space kept), not the trimmed "Фикус" the
claim requires. -/
theorem claim_C8_counterexample :
    parse_houseplant wDashTitle "u" =
      ERes.ok ⟨"Фикус ".data, "1.jpg".data,
        { watering := some ⟨"Полив".data, "часто".data⟩ }⟩
  ∧ specTrim "Фикус ".data = "Фикус".data
  ∧ "Фикус ".data ≠ "Фикус".data := by
  decide

/-- C8 amended: the record's name is the title text truncated at the
first occurrence of '—' with NO trimming: it is the initial segment
of the title up to (excluding) the first '—' — the whole title when
no '—' occurs — surrounding whitespace included. -/
theorem claim_C8_amended :
    ∀ (w : World) (url : String) (page : DetailPage) (t : List Char) (h : Houseplant),
      w.fetchDetail url = some page →
      page.title = some t →
      parse_houseplant w url = ERes.ok h →
      h.name = splitFirst '—' t
      ∧ ('—' ∈ h.name → False)
      ∧ ∃ rest, t = h.name ++ rest ∧ (rest = [] ∨ ∃ r', rest = '—' :: r') := by
  intro w url page t h hfetch htitle hok
  obtain ⟨ot, oi, od, otr⟩ := page
  simp only at htitle
  subst htitle
  simp only [parse_houseplant, hfetch] at hok
  have hname : h.name = splitFirst '—' t := by
    cases oi with
    | none => simp at hok
    | some a =>
      cases a with
      | none => simp at hok
      | some iu =>
        cases od with
        | none => simp at hok
        | some fn =>
          cases otr with
          | none => simp at hok
          | some rows =>
            dsimp only at hok
            cases hr : readRows rows with
            | none => rw [hr] at hok; simp at hok
            | some lst =>
              rw [hr] at hok
              dsimp only at hok
              cases hok
              rfl
  refine ⟨hname, ?_, ?_⟩
  · rw [hname]
    exact (splitFirst_spec '—' t).1
  · rw [hname]
    exact (splitFirst_spec '—' t).2

theorem claim_C8_witness :
    (parse_houseplant wOneBad "p").toOption.map Houseplant.name = some "Фикус".data
  ∧ ('—' ∈ ("Фикус".data : List Char) → False) :=
  ⟨by decide,
   (claim_C8_amended wOneBad "p" goodPage "Фикус".data
      ⟨"Фикус".data, "1.jpg".data, { watering := some ⟨"Полив".data, "часто".data⟩ }⟩
      (by decide) (by decide) (by decide)).2.1⟩

/-! ## Claim C9: fatal conditions of the run -/

/-- A world where the front page succeeds, one category with one page
and one plant resolves fully, but the database rejects the insert —
`expect("Failed to insert info into database")` panics, aborting the
run even though the front-page fetch succeeded. -/
def wDbFail : World :=
  { front := some [some (some "cat")]
  , fetchCat := fun _ => some none
  , fetchListing := fun _ => some [some "p1"]
  , fetchDetail := fun _ => some goodPage
  , db := some (fun _ => false) }

/-- C9 as stated is false: front-page fetch failure is not the sole
fatal condition — with the front page fetched successfully and one
plant extracted, a failing database insert panics and the run does
not reach completion with a record list. -/
theorem claim_C9_counterexample :
    wDbFail.front ≠ none ∧ scraper wDbFail = ERes.panic := by
  exact ⟨by decide, by decide⟩

/-- C9 amended: front-page fetch failure aborts the run with an
error, and it is the only condition reported as an error (`scraper`
returns `Err` exactly when the front-page fetch fails); however other
fatal conditions exist as panics (failed database insert, missing
title or image attribute, malformed table row or pagination markup).
Every run that is free of panics and has a fetched front page
completes and returns the accumulated record list. -/
theorem claim_C9_amended :
    ∀ w : World,
      (scraper w = ERes.err ↔ w.front = none)
      ∧ (w.front ≠ none → scraper w ≠ ERes.panic → ∃ rs, scraper w = ERes.ok rs) := by
  intro w
  cases hf : w.front with
  | none =>
    refine ⟨⟨fun _ => rfl, fun _ => by simp [scraper, hf]⟩, fun hne => absurd rfl hne⟩
  | some items =>
    constructor
    · constructor
      · intro hs
        exfalso
        simp only [scraper, hf] at hs
        cases hb : stageB w (catUrls items) with
        | panic => rw [hb] at hs; exact absurd hs (by simp)
        | ok pu =>
          rw [hb] at hs
          dsimp only at hs
          cases hc : stageC w (dedupUrls pu) with
          | panic => rw [hc] at hs; exact absurd hs (by simp)
          | ok rs => rw [hc] at hs; exact absurd hs (by simp)
      · intro hcontra
        exact Option.noConfusion hcontra
    · intro _ hnp
      cases hb : stageB w (catUrls items) with
      | panic => exact absurd (by simp [scraper, hf, hb]) hnp
      | ok pu =>
        cases hc : stageC w (dedupUrls pu) with
        | panic => exact absurd (by simp [scraper, hf, hb, hc]) hnp
        | ok rs => exact ⟨rs, by simp [scraper, hf, hb, hc]⟩

/-- A world with a successfully fetched (empty) front page. -/
def wEmptyFront : World :=
  { front := some []
  , fetchCat := fun _ => none
  , fetchListing := fun _ => none
  , fetchDetail := fun _ => none
  , db := none }

theorem claim_C9_witness :
    ∃ rs, scraper wEmptyFront = ERes.ok rs :=
  (claim_C9_amended wEmptyFront).2 (by decide) (by decide)
